import Mathlib

/-!
# Verification of the sktime pytorch adapter layer

Shallow embedding of the windowed-dataset adapters, the index
reconstruction and the training/inference loop of
`sktime/forecasting/base/adapters/_pytorch.py` and
`sktime/classification/deep_learning/_pytorch.py`, together with proofs
of the behavioural properties stated in the design specification.

Values carried by the series are modelled as integers: all properties
under study concern slicing, indexing and ordering, never arithmetic on
the stored observations.
-/

/-- One time point of one instance: the list of variable values. -/
abbrev Row := List Int

/-- One instance of a panel: the list of its time points (time × variable). -/
abbrev Series := List Row

/-- A panel in dense-array form: instance × time × variable, as produced by
`_frame2numpy` / `np.expand_dims` in `_prepare_data`. -/
abbrev PanelData := List Series

/-- Embeds `PyTorchDataset.__init__`: stores the panel array together with
`seq_len` and `pred_len`. -/
structure PyTorchDataset where
  y : PanelData
  seq_len : Nat
  pred_len : Nat

namespace PyTorchDataset

/-- Embeds `self._num`: first component of the numpy shape. -/
def num (ds : PyTorchDataset) : Nat := ds.y.length

/-- Embeds `self._len`: second component of the numpy shape (a dense ndarray is
rectangular, so the first instance's length is the shared time length). -/
def lenT (ds : PyTorchDataset) : Nat := (ds.y.headD []).length

/-- Embeds `self._len_single = self._len - self.seq_len - self.pred_len + 1`,
computed in python's signed integers. -/
def lenSingle (ds : PyTorchDataset) : Int :=
  (ds.lenT : Int) - ds.seq_len - ds.pred_len + 1

/-- Embeds `max(self._len_single, 0)` as a natural number. -/
def lenSingleN (ds : PyTorchDataset) : Nat := (max ds.lenSingle 0).toNat

/-- Embeds `PyTorchDataset.__len__`:
`self._num * max(self._len_single, 0)`. -/
def length (ds : PyTorchDataset) : Nat := ds.num * ds.lenSingleN

/-- Embeds `PyTorchDataset.__getitem__`: `n = i // _len_single`,
`m = i % _len_single`, history slice `y[n, m : m+seq_len]` and future
slice `y[n, m+seq_len : m+seq_len+pred_len]`. -/
def getItem (ds : PyTorchDataset) (i : Nat) : Series × Series :=
  let n := i / ds.lenSingleN
  let m := i % ds.lenSingleN
  let inst := ds.y.getD n []
  ((inst.drop m).take ds.seq_len,
   (inst.drop (m + ds.seq_len)).take ds.pred_len)

/-- The dense-ndarray guarantee: every instance has the shared time length. -/
abbrev Rect (ds : PyTorchDataset) : Prop := ∀ s ∈ ds.y, s.length = ds.lenT

end PyTorchDataset

/-- The number of valid window start offsets for instance length `L` and
window span `k = seq_len + pred_len`: the offsets `m` with `m + k ≤ L`. -/
def validOffsetCount (L k : Nat) : Nat :=
  ((Finset.range (L + 1)).filter (fun m => m + k ≤ L)).card

/-- A concrete one-instance panel of length 10, one variable. -/
def exDs : PyTorchDataset := ⟨[[[0],[1],[2],[3],[4],[5],[6],[7],[8],[9]]], 6, 3⟩

/-- Batches delivered by a torch `DataLoader` with `drop_last=False`:
ceiling division of the dataset length by the batch size. -/
def numBatches (n batchSize : Nat) : Nat := (n + batchSize - 1) / batchSize

/-- Embeds `BaseDeepNetworkPyTorch._run_epoch`: one pass over the
dataloader's batches, one optimizer step per batch; returns the number of
steps taken. The network, criterion and optimizer are external
collaborators, so only the iteration structure is modelled. -/
def run_epoch (nBatches : Nat) : Nat := nBatches

/-- Embeds the epoch loop of `BaseDeepNetworkPyTorch._fit`: builds the
dataloader and runs `num_epochs` epochs. The source contains no check for
an empty dataset, and no statement in the loop can raise on empty data,
so the outcome is always `ok` with the total number of optimizer steps. -/
def fitOutcome (numEpochs : Nat) (ds : PyTorchDataset) (batchSize : Nat) :
    Except String Nat :=
  Except.ok ((List.range numEpochs).foldl
    (fun steps _ => steps + run_epoch (numBatches ds.length batchSize)) 0)

/-- The configuration of the torch `DataLoader` returned by
`build_dataloader`. -/
structure DataLoaderCfg where
  dataset : PyTorchDataset
  batchSize : Nat
  shuffle : Bool

/-- Embeds `BaseDeepNetworkPyTorch.build_dataloader` (default-dataset
branch): for the test split the panel is truncated to the trailing
`seq_len` observations and `pred_len` is set to 0; the DataLoader is
constructed with `shuffle=True` in both branches (source line 233). -/
def build_dataloader (y : PanelData) (seq_len pred_len batchSize : Nat)
    (split : String) : DataLoaderCfg :=
  let yt := if split = "test" then y.map (fun s => s.drop (s.length - seq_len)) else y
  let predt := if split = "test" then 0 else pred_len
  { dataset := ⟨yt, seq_len, predt⟩, batchSize := batchSize, shuffle := true }

/-- Embeds `PyTorchTrainDataset.__init__`: a single frame `y` (time ×
variable), optional exogenous frame `X`, `seq_len` and the maximum
relative horizon `fh`. -/
structure PyTorchTrainDataset where
  y : Series
  X : Option Series
  seq_len : Nat
  fh : Nat

namespace PyTorchTrainDataset

/-- Embeds `PyTorchTrainDataset.__len__`:
`max(len(self.y) - self.seq_len - self.fh + 1, 0)`. -/
def length (ds : PyTorchTrainDataset) : Nat :=
  (max ((ds.y.length : Int) - ds.seq_len - ds.fh + 1) 0).toNat

/-- Embeds `PyTorchTrainDataset.__getitem__`: the history slice
`y[i : i+seq_len]`, the exogenous slice `X[i+seq_len : i+seq_len+fh]`
(or `torch.tensor([])`, a tensor with zero elements, when `X is None`),
joined by `torch.cat([hist_y, exog_data])` — whose default dimension is
0, the time axis — and the target `y[i+seq_len : i+seq_len+fh]`. -/
def getItem (ds : PyTorchTrainDataset) (i : Nat) : Series × Series :=
  let hist := (ds.y.drop i).take ds.seq_len
  let exog := match ds.X with
    | some xs => (xs.drop (i + ds.seq_len)).take ds.fh
    | none => ([] : Series)
  (hist ++ exog, (ds.y.drop (i + ds.seq_len)).take ds.fh)

end PyTorchTrainDataset

/-- The behaviour C7 claims: concatenation of history and exogenous block
along the *variable* axis (numpy/torch `dim=-1`), i.e. rowwise append. -/
def varAxisConcat (a b : Series) : Series := a.zipWith (fun r s => r ++ s) b

/-- A concrete train dataset: `y` of length 4 (one variable), exogenous
`X` of length 4 (one variable), `seq_len = 2`, `fh = 1`. -/
def exTrainDs : PyTorchTrainDataset :=
  ⟨[[1],[2],[3],[4]], some [[10],[20],[30],[40]], 2, 1⟩

/-- Embeds `PyTorchPredDataset`: attributes set by `__init__` are `y`,
`seq_len` and `X`; the attribute `fh` is modelled as an `Option` that the
constructor leaves at `none`, because `__init__` never assigns it —
reading an unassigned attribute is python's `AttributeError`. -/
structure PyTorchPredDataset where
  y : Series
  seq_len : Nat
  X : Option Series
  fh : Option Nat

/-- Embeds the `PyTorchPredDataset(y=..., seq_len=..., X=...)` call:
`self.fh` is never initialized. -/
def mkPredDataset (y : Series) (seq_len : Nat) (X : Option Series) :
    PyTorchPredDataset :=
  { y := y, seq_len := seq_len, X := X, fh := none }

namespace PyTorchPredDataset

/-- Embeds `PyTorchPredDataset.__len__`: always 1. -/
def length (_ : PyTorchPredDataset) : Nat := 1

/-- Embeds `PyTorchPredDataset.__getitem__`: history `y[i : i+seq_len]`;
when `X is not None` the exogenous branch reads `self.fh`, which raises
`AttributeError` if unassigned; the target is the empty slice
`y[i+seq_len : i+seq_len]`. -/
def getItem (ds : PyTorchPredDataset) (i : Nat) :
    Except String (Series × Series) :=
  let hist := (ds.y.drop i).take ds.seq_len
  match ds.X with
  | some xs =>
    match ds.fh with
    | none => .error "AttributeError: object has no attribute fh"
    | some f =>
        .ok (hist ++ (xs.drop (i + ds.seq_len)).take f,
             (ds.y.drop (i + ds.seq_len)).take 0)
  | none => .ok (hist, (ds.y.drop (i + ds.seq_len)).take 0)

end PyTorchPredDataset

/-- Embeds the dataset construction of `build_pytorch_pred_dataloader`:
`PyTorchPredDataset(y=y[-seq_len:], seq_len=seq_len)` — the trailing
`seq_len` observations, no exogenous data. -/
def build_pytorch_pred_dataset (y : Series) (seq_len : Nat) :
    PyTorchPredDataset :=
  mkPredDataset (y.drop (y.length - seq_len)) seq_len none

/-- The value produced by `_instantiate_optimizer`: either a registry
constructor applied to the network parameters, the configured learning
rate and the (possibly empty) kwargs, or the default
`torch.optim.Adam(..., lr=lr)`. Kwargs are a name-to-value dictionary. -/
inductive OptimizerInstance where
  | registryCtor (name : String) (lr : Int) (kwargs : List (String × Int))
  | adamDefault (lr : Int)
deriving DecidableEq

/-- Python truthiness of the `optimizer` attribute (a string or `None`):
`None` and the empty string are falsy. -/
def pyTruthyName : Option String → Bool
  | none => false
  | some s => !(s == "")

/-- Embeds `BaseDeepNetworkPyTorch._instantiate_optimizer` (identical in
`BaseDeepClassifierPytorch`): `if self.optimizer:` → registry lookup,
`TypeError` enumerating the registry's keys on a miss, kwargs forwarded
only when truthy; falsy `optimizer` → default Adam with the configured
learning rate. The registry `self.optimizers` is supplied by concrete
subclasses and is modelled as the list of its keys. -/
def instantiate_optimizer (registry : List String) (optimizer : Option String)
    (lr : Int) (optimizer_kwargs : List (String × Int)) :
    Except String OptimizerInstance :=
  if pyTruthyName optimizer then
    let name := optimizer.getD ""
    if registry.contains name then
      if optimizer_kwargs.isEmpty then
        .ok (.registryCtor name lr [])
      else
        .ok (.registryCtor name lr optimizer_kwargs)
    else
      .error ("Please pass one of " ++ String.intercalate ", " registry
        ++ " for optimizer.")
  else
    .ok (.adamDefault lr)

/-- Appearance-order deduplication: the distinct values of a list in the
order of their first occurrence. This is the order in which a panel's
instances appear; the specification phrases the outer index level in
terms of this order. -/
def uniqueInOrder : List Int → List Int
  | [] => []
  | a :: t => a :: (uniqueInOrder t).filter (fun b => b ≠ a)

/-- Embeds `np.unique`: the distinct values of the array in **sorted**
order (numpy's documented behaviour: "Returns the sorted unique elements
of an array"). -/
def npUnique (l : List Int) : List Int :=
  List.insertionSort (· ≤ ·) (uniqueInOrder l)

/-- Embeds `np.repeat(arr, k)`: each element repeated `k` times,
element-wise. -/
def repeatEach (k : Nat) : List Int → List Int
  | [] => []
  | a :: t => List.replicate k a ++ repeatEach k t

/-- Embeds python list repetition `lst * B`: `B` concatenated copies. -/
def tile (l : List Int) : Nat → List Int
  | 0 => []
  | B + 1 => l ++ tile l B

/-- The relative offsets `range(1, h + 1)` as integers. -/
def oneTo (h : Nat) : List Int :=
  List.map (fun t : Nat => (t : Int) + 1) (List.range h)

/-- Modelled from the spec: `ForecastingHorizon(range(1, h+1),
...).to_absolute(cutoff)` — absent from `src/`, it lives in the
surrounding sktime base package — is, for plain integer indices, the
identity offset from the cutoff: absolute timestamp `cutoff + o` for each
relative offset `o`. -/
def absTimes (cutoff : Int) (h : Nat) : List Int :=
  (oneTo h).map (fun o => cutoff + o)

/-- The index metadata reconstructed by `_predict` for a multi-instance
panel: outer level(s), inner (time) level, and the level names. -/
structure ReconIndex where
  outer : List Int
  inner : List Int
  names : List String
deriving DecidableEq

/-- Embeds the index reconstruction of `BaseDeepNetworkPyTorch._predict`
(lines 149-164): `ins = np.unique(_y.index.droplevel(-1)).repeat(h)`,
`idx = ForecastingHorizon(range(1, h+1)).to_absolute(cutoff) * B`, and
`pd.MultiIndex.from_arrays(ins + [idx], names=_y.index.names)`.
`idsFlat` is the instance identifier of each row of the input panel in
panel order (the droplevel(-1) values), `h` the prediction horizon length
`pred.shape[1]`, `B` the batch count `pred.shape[0]`. -/
def reconstructIndex (idsFlat : List Int) (h B : Nat) (cutoff : Int)
    (names : List String) : ReconIndex :=
  { outer := repeatEach h (npUnique idsFlat)
    inner := tile (absTimes cutoff h) B
    names := names }

/-- All (instance, time) pairs: each identifier of `u` paired with every
timestamp of `ts`, grouped by instance in order. -/
def pairAll : List Int → List Int → List (Int × Int)
  | [], _ => []
  | a :: rest, ts => ts.map (fun t => (a, t)) ++ pairAll rest ts

/-- The reconstructed row index of the prediction frame, in the aligned
case `B = number of distinct instances`: outer level zipped with the
inner level. -/
def reconRows (ids : List Int) (h : Nat) (cutoff : Int) : List (Int × Int) :=
  (repeatEach h (npUnique ids)).zip
    (tile (absTimes cutoff h) (npUnique ids).length)

/-- Embeds the horizon filtering of `_predict` (lines 179-183):
`dateindex = pred.index.get_level_values(-1).map(lambda x: x in
absolute_horizons)` followed by `pred.loc[dateindex]` — keep exactly the
rows whose inner index value is a member of the absolute horizon set. -/
def filterPreds (rows : List (Int × Int)) (absHorizons : List Int) :
    List (Int × Int) :=
  rows.filter (fun r => decide (r.2 ∈ absHorizons))

theorem validOffsetCount_eq (L k : Nat) : validOffsetCount L k = L + 1 - k := by
  unfold validOffsetCount
  have hset : (Finset.range (L + 1)).filter (fun m => m + k ≤ L)
      = Finset.range (L + 1 - k) := by
    ext m
    simp only [Finset.mem_filter, Finset.mem_range]
    omega
  rw [hset, Finset.card_range]

theorem lenSingleN_eq (ds : PyTorchDataset) :
    ds.lenSingleN = ds.lenT + 1 - ds.seq_len - ds.pred_len := by
  simp only [PyTorchDataset.lenSingleN, PyTorchDataset.lenSingle]
  omega

/-- C1: the reported dataset length is `instances * max(L - s - p + 1, 0)`,
which is the number of instances times the number of valid window start
offsets; an instance of length 10 with `seq_len = 6`, `pred_len = 3`
contributes exactly 2 windows, and a too-short instance contributes 0. -/
theorem window_count_invariant :
    (∀ ds : PyTorchDataset,
      ds.length = ds.num * (max ((ds.lenT : Int) - ds.seq_len - ds.pred_len + 1) 0).toNat
        ∧ ds.length = ds.num * validOffsetCount ds.lenT (ds.seq_len + ds.pred_len))
    ∧ (PyTorchDataset.mk [List.replicate 10 [0]] 6 3).length = 2
    ∧ (PyTorchDataset.mk [List.replicate 5 [0]] 6 0).length = 0 := by
  refine ⟨fun ds => ⟨rfl, ?_⟩, by decide, by decide⟩
  rw [validOffsetCount_eq, PyTorchDataset.length, lenSingleN_eq, Nat.sub_sub]

theorem getD_take_drop (l : List Row) (m k t : Nat) (ht : t < k) :
    ((l.drop m).take k).getD t [] = l.getD (m + t) [] := by
  rw [List.getD_eq_getElem?_getD, List.getD_eq_getElem?_getD,
    List.getElem?_take_of_lt ht, List.getElem?_drop]

theorem getItem_fst (ds : PyTorchDataset) (i : Nat) :
    (ds.getItem i).1
      = ((ds.y.getD (i / ds.lenSingleN) []).drop (i % ds.lenSingleN)).take ds.seq_len :=
  rfl

theorem getItem_snd (ds : PyTorchDataset) (i : Nat) :
    (ds.getItem i).2
      = ((ds.y.getD (i / ds.lenSingleN) []).drop
          (i % ds.lenSingleN + ds.seq_len)).take ds.pred_len :=
  rfl

/-- C2: for every in-range flat index `i` on a rectangular panel,
`__getitem__` addresses instance `n = i / windows_per_instance` at offset
`m = i % windows_per_instance`; the history has length `seq_len` with
entries `[m, m + seq_len)` of that instance, and the future has length
`pred_len` with entries `[m + seq_len, m + seq_len + pred_len)`. -/
theorem get_item_slices (ds : PyTorchDataset) (hrect : ds.Rect)
    (i : Nat) (hi : i < ds.length) :
    i / ds.lenSingleN < ds.num ∧
    i % ds.lenSingleN + ds.seq_len + ds.pred_len ≤ ds.lenT ∧
    (ds.getItem i).1.length = ds.seq_len ∧
    (ds.getItem i).2.length = ds.pred_len ∧
    (∀ t, t < ds.seq_len →
      (ds.getItem i).1.getD t []
        = (ds.y.getD (i / ds.lenSingleN) []).getD (i % ds.lenSingleN + t) []) ∧
    (∀ t, t < ds.pred_len →
      (ds.getItem i).2.getD t []
        = (ds.y.getD (i / ds.lenSingleN) []).getD
            (i % ds.lenSingleN + ds.seq_len + t) []) := by
  have hw : 0 < ds.lenSingleN := by
    by_contra h
    have h0 : ds.lenSingleN = 0 := by omega
    rw [PyTorchDataset.length, h0, Nat.mul_zero] at hi
    exact absurd hi (Nat.not_lt_zero i)
  have hn : i / ds.lenSingleN < ds.num :=
    (Nat.div_lt_iff_lt_mul hw).mpr hi
  have hm : i % ds.lenSingleN < ds.lenSingleN := Nat.mod_lt i hw
  have hwin : i % ds.lenSingleN + ds.seq_len + ds.pred_len ≤ ds.lenT := by
    have := lenSingleN_eq ds
    omega
  have hinstlen : (ds.y.getD (i / ds.lenSingleN) []).length = ds.lenT := by
    have hget : ds.y.getD (i / ds.lenSingleN) []
        = ds.y.get ⟨i / ds.lenSingleN, hn⟩ := by
      rw [List.getD_eq_getElem?_getD, List.getElem?_eq_getElem hn]
      rfl
    rw [hget]
    exact hrect _ (List.get_mem ds.y _ hn)
  refine ⟨hn, hwin, ?_, ?_, ?_, ?_⟩
  · rw [getItem_fst, List.length_take, List.length_drop, hinstlen]
    omega
  · rw [getItem_snd, List.length_take, List.length_drop, hinstlen]
    omega
  · intro t ht
    rw [getItem_fst]
    exact getD_take_drop (ds.y.getD (i / ds.lenSingleN) [])
      (i % ds.lenSingleN) ds.seq_len t ht
  · intro t ht
    rw [getItem_snd]
    exact getD_take_drop (ds.y.getD (i / ds.lenSingleN) [])
      (i % ds.lenSingleN + ds.seq_len) ds.pred_len t ht

/-- Concrete witness for `get_item_slices`: the panel `exDs` with
`seq_len = 6`, `pred_len = 3` and flat index `i = 1`. -/
theorem get_item_slices_witness :
    exDs.Rect ∧ 1 < exDs.length ∧
    (1 / exDs.lenSingleN < exDs.num ∧
     1 % exDs.lenSingleN + exDs.seq_len + exDs.pred_len ≤ exDs.lenT ∧
     (exDs.getItem 1).1.length = exDs.seq_len ∧
     (exDs.getItem 1).2.length = exDs.pred_len ∧
     (∀ t, t < exDs.seq_len →
       (exDs.getItem 1).1.getD t []
         = (exDs.y.getD (1 / exDs.lenSingleN) []).getD (1 % exDs.lenSingleN + t) []) ∧
     (∀ t, t < exDs.pred_len →
       (exDs.getItem 1).2.getD t []
         = (exDs.y.getD (1 / exDs.lenSingleN) []).getD
             (1 % exDs.lenSingleN + exDs.seq_len + t) [])) :=
  ⟨by decide, by decide, get_item_slices exDs (by decide) 1 (by decide)⟩

theorem numBatches_zero (b : Nat) : numBatches 0 b = 0 := by
  unfold numBatches
  rcases b with _ | b
  · rfl
  · simpa using Nat.div_eq_of_lt (Nat.lt_succ_self b)

theorem foldl_self (l : List Nat) (a : Nat) :
    l.foldl (fun s _ => s) a = a := by
  induction l generalizing a with
  | nil => rfl
  | cons x xs ih => simp [ih]

/-- C5: an instance of length 5 with `seq_len = 6`, `pred_len = 0` yields
zero windows without raising, and `_fit` on such data completes with `ok`
after zero optimizer steps — it never raises, for any epoch count and
batch size, because the loop contains no empty-batch check. -/
theorem fit_empty_windowing_silent :
    (PyTorchDataset.mk [List.replicate 5 [0]] 6 0).length = 0 ∧
    ∀ numEpochs batchSize,
      fitOutcome numEpochs (PyTorchDataset.mk [List.replicate 5 [0]] 6 0) batchSize
        = Except.ok 0 := by
  have h0 : (PyTorchDataset.mk [List.replicate 5 [0]] 6 0).length = 0 := by decide
  refine ⟨h0, fun numEpochs batchSize => ?_⟩
  unfold fitOutcome run_epoch
  simp only [h0, numBatches_zero, Nat.add_zero]
  rw [foldl_self]

/-- C6: the dataloader used by `_predict` (`split="test"`) is constructed
with `shuffle = true` — the same unconditional flag as the training
split — so inference batches are *not* delivered in deterministic order. -/
theorem predict_dataloader_shuffles :
    ∀ y seq_len pred_len batchSize split,
      (build_dataloader y seq_len pred_len batchSize split).shuffle = true :=
  fun _ _ _ _ _ => rfl

/-- C7 counterexample: at item 0 of `exTrainDs` the code produces
`[[1],[2],[30]]` — history rows followed by the exogenous row, i.e. a
*time*-axis concatenation of `seq_len + fh = 3` rows — which is not the
variable-axis concatenation `[[1,30]]` and does not have the history's
`seq_len = 2` rows, so the input shape also differs between the
with-exogenous and without-exogenous cases. -/
theorem train_concat_not_var_axis :
    (exTrainDs.getItem 0).1 = [[1],[2],[30]] ∧
    varAxisConcat [[1],[2]] [[30]] = [[1,30]] ∧
    (exTrainDs.getItem 0).1
      ≠ varAxisConcat ((exTrainDs.y.drop 0).take exTrainDs.seq_len)
          ((((exTrainDs.X.getD []).drop (0 + exTrainDs.seq_len)).take exTrainDs.fh)) ∧
    ((exTrainDs.getItem 0).1).length ≠ exTrainDs.seq_len ∧
    ((PyTorchTrainDataset.mk [[1],[2],[3],[4]] none 2 1).getItem 0).1.length
      = exTrainDs.seq_len := by
  decide

/-- C7 amended: the exogenous future block is concatenated onto the
history along the **time** axis (rows appended after the history rows);
with exogenous data the input has `seq_len + fh` rows, and without it the
concatenated contribution is the empty tensor, leaving exactly the
`seq_len` history rows. -/
theorem train_concat_time_axis (ds : PyTorchTrainDataset) (i : Nat)
    (hy : i + ds.seq_len + ds.fh ≤ ds.y.length) :
    ((ds.X = none →
        (ds.getItem i).1 = (ds.y.drop i).take ds.seq_len ∧
        ((ds.getItem i).1).length = ds.seq_len) ∧
     (∀ xs, ds.X = some xs → xs.length = ds.y.length →
        (ds.getItem i).1
          = (ds.y.drop i).take ds.seq_len ++ (xs.drop (i + ds.seq_len)).take ds.fh ∧
        ((ds.getItem i).1).length = ds.seq_len + ds.fh)) ∧
    (ds.getItem i).2 = (ds.y.drop (i + ds.seq_len)).take ds.fh := by
  refine ⟨⟨?_, ?_⟩, rfl⟩
  · intro hX
    have h1 : (ds.getItem i).1 = (ds.y.drop i).take ds.seq_len := by
      unfold PyTorchTrainDataset.getItem
      rw [hX]
      simp
    refine ⟨h1, ?_⟩
    rw [h1, List.length_take, List.length_drop]
    omega
  · intro xs hX hlen
    have h1 : (ds.getItem i).1
        = (ds.y.drop i).take ds.seq_len ++ (xs.drop (i + ds.seq_len)).take ds.fh := by
      unfold PyTorchTrainDataset.getItem
      rw [hX]
    refine ⟨h1, ?_⟩
    rw [h1, List.length_append, List.length_take, List.length_drop,
      List.length_take, List.length_drop]
    omega

/-- Concrete witness for `train_concat_time_axis`: `exTrainDs` at item 0. -/
theorem train_concat_time_axis_witness :
    0 + exTrainDs.seq_len + exTrainDs.fh ≤ exTrainDs.y.length ∧
    (((exTrainDs.X = none →
        (exTrainDs.getItem 0).1 = (exTrainDs.y.drop 0).take exTrainDs.seq_len ∧
        ((exTrainDs.getItem 0).1).length = exTrainDs.seq_len) ∧
      (∀ xs, exTrainDs.X = some xs → xs.length = exTrainDs.y.length →
        (exTrainDs.getItem 0).1
          = (exTrainDs.y.drop 0).take exTrainDs.seq_len
              ++ (xs.drop (0 + exTrainDs.seq_len)).take exTrainDs.fh ∧
        ((exTrainDs.getItem 0).1).length = exTrainDs.seq_len + exTrainDs.fh)) ∧
     (exTrainDs.getItem 0).2 = (exTrainDs.y.drop (0 + exTrainDs.seq_len)).take exTrainDs.fh) :=
  ⟨by decide, train_concat_time_axis exTrainDs 0 (by decide)⟩

/-- C8: for every series with at least `seq_len` observations, the
pure-inference dataset reports length exactly 1, and its single item is
the trailing window of length `seq_len` ending at the series' end —
entry `t` of the window is entry `(length - seq_len) + t` of the series —
paired with an empty target slice. -/
theorem pred_dataset_trailing_window (y : Series) (seq_len : Nat)
    (h : seq_len ≤ y.length) :
    (build_pytorch_pred_dataset y seq_len).length = 1 ∧
    (build_pytorch_pred_dataset y seq_len).getItem 0
      = .ok (y.drop (y.length - seq_len), []) ∧
    (y.drop (y.length - seq_len)).length = seq_len ∧
    (∀ t, t < seq_len →
      (y.drop (y.length - seq_len)).getD t [] = y.getD (y.length - seq_len + t) []) := by
  have hlen : (y.drop (y.length - seq_len)).length = seq_len := by
    rw [List.length_drop]
    omega
  refine ⟨rfl, ?_, hlen, ?_⟩
  · show Except.ok
        (((y.drop (y.length - seq_len)).drop 0).take seq_len,
         ((y.drop (y.length - seq_len)).drop (0 + seq_len)).take 0)
      = Except.ok (y.drop (y.length - seq_len), ([] : Series))
    rw [List.drop_zero, List.take_of_length_le (le_of_eq hlen), List.take_zero]
  · intro t ht
    have := getD_take_drop y (y.length - seq_len) seq_len t ht
    calc (y.drop (y.length - seq_len)).getD t []
        = ((y.drop (y.length - seq_len)).take seq_len).getD t [] := by
          rw [List.take_of_length_le (le_of_eq hlen)]
      _ = y.getD (y.length - seq_len + t) [] := this

/-- Concrete witness for `pred_dataset_trailing_window`: a series of
length 5 with `seq_len = 3`. -/
theorem pred_dataset_trailing_window_witness :
    3 ≤ ([[0],[1],[2],[3],[4]] : Series).length ∧
    ((build_pytorch_pred_dataset [[0],[1],[2],[3],[4]] 3).length = 1 ∧
     (build_pytorch_pred_dataset [[0],[1],[2],[3],[4]] 3).getItem 0
       = .ok (([[0],[1],[2],[3],[4]] : Series).drop
           (([[0],[1],[2],[3],[4]] : Series).length - 3), []) ∧
     (([[0],[1],[2],[3],[4]] : Series).drop
         (([[0],[1],[2],[3],[4]] : Series).length - 3)).length = 3 ∧
     (∀ t, t < 3 →
       (([[0],[1],[2],[3],[4]] : Series).drop
           (([[0],[1],[2],[3],[4]] : Series).length - 3)).getD t []
         = ([[0],[1],[2],[3],[4]] : Series).getD
             (([[0],[1],[2],[3],[4]] : Series).length - 3 + t) [])) :=
  ⟨by decide, pred_dataset_trailing_window [[0],[1],[2],[3],[4]] 3 (by decide)⟩

/-- C10: every item access on a prediction dataset constructed with
exogenous data `X` raises `AttributeError` (the exogenous branch reads
the never-initialized attribute `fh`), while item access with `X = None`
succeeds. -/
theorem pred_dataset_exog_attribute_error :
    (∀ y seq_len xs i,
      (mkPredDataset y seq_len (some xs)).getItem i
        = .error "AttributeError: object has no attribute fh") ∧
    (∀ y seq_len i,
      (mkPredDataset y seq_len none).getItem i
        = .ok ((y.drop i).take seq_len, [])) := by
  constructor
  · intro y seq_len xs i
    rfl
  · intro y seq_len i
    show Except.ok ((y.drop i).take seq_len, (y.drop (i + seq_len)).take 0)
      = Except.ok ((y.drop i).take seq_len, ([] : Series))
    rw [List.take_zero]

/-- C9 counterexample: the empty string is a passed name that is not a
registry key, yet no configuration error is raised — python's
`if self.optimizer:` treats `""` as falsy, so the default Adam optimizer
is silently constructed instead. -/
theorem optimizer_empty_name_no_error :
    instantiate_optimizer ["Adam", "SGD"] (some "") 5 []
      = .ok (.adamDefault 5) ∧
    (["Adam", "SGD"] : List String).contains "" = false := by
  constructor <;> rfl

/-- C9 amended: for a *non-empty* passed name, a miss on the registry
raises the error enumerating the valid names, and a hit invokes the
registry constructor with the configured learning rate and kwargs; when
no name (or a falsy empty name) is passed, the default Adam optimizer is
constructed with the configured learning rate. -/
theorem optimizer_instantiation_spec (registry : List String)
    (optimizer : Option String) (lr : Int)
    (optimizer_kwargs : List (String × Int)) :
    (optimizer = none ∨ optimizer = some "" →
      instantiate_optimizer registry optimizer lr optimizer_kwargs
        = .ok (.adamDefault lr)) ∧
    (∀ name, optimizer = some name → name ≠ "" →
      registry.contains name = false →
      instantiate_optimizer registry optimizer lr optimizer_kwargs
        = .error ("Please pass one of " ++ String.intercalate ", " registry
            ++ " for optimizer.")) ∧
    (∀ name, optimizer = some name → name ≠ "" →
      registry.contains name = true →
      instantiate_optimizer registry optimizer lr optimizer_kwargs
        = .ok (.registryCtor name lr optimizer_kwargs)) := by
  refine ⟨?_, ?_, ?_⟩
  · rintro (h | h) <;> rw [h] <;> rfl
  · intro name hname hne hmiss
    rw [hname]
    unfold instantiate_optimizer
    have ht : pyTruthyName (some name) = true := by
      simp [pyTruthyName, hne]
    rw [ht]
    simp only [if_true, Option.getD_some, hmiss]
    rfl
  · intro name hname hne hhit
    rw [hname]
    unfold instantiate_optimizer
    have ht : pyTruthyName (some name) = true := by
      simp [pyTruthyName, hne]
    rw [ht]
    simp only [if_true, Option.getD_some, hhit]
    rcases hk : optimizer_kwargs with _ | ⟨p, rest⟩
    · rfl
    · rfl

/-- Concrete witness for `optimizer_instantiation_spec`: registry
`["Adam", "SGD"]`, name `"SGD"`, `lr = 7`, one kwarg. -/
theorem optimizer_instantiation_spec_witness :
    instantiate_optimizer ["Adam", "SGD"] (some "SGD") 7 [("momentum", 1)]
      = .ok (.registryCtor "SGD" 7 [("momentum", 1)]) :=
  (optimizer_instantiation_spec ["Adam", "SGD"] (some "SGD") 7
    [("momentum", 1)]).2.2 "SGD" rfl (by decide) (by decide)

theorem repeatEach_length (k : Nat) (l : List Int) :
    (repeatEach k l).length = l.length * k := by
  induction l with
  | nil => simp [repeatEach]
  | cons a t ih =>
      simp [repeatEach, ih, Nat.succ_mul, Nat.add_comm]

theorem getD_append_left (l1 l2 : List Int) (i : Nat) (h : i < l1.length) :
    (l1 ++ l2).getD i 0 = l1.getD i 0 := by
  rw [List.getD_eq_getElem?_getD, List.getD_eq_getElem?_getD, List.getElem?_append]
  simp [h]

theorem getD_append_right (l1 l2 : List Int) (i : Nat) (h : l1.length ≤ i) :
    (l1 ++ l2).getD i 0 = l2.getD (i - l1.length) 0 := by
  rw [List.getD_eq_getElem?_getD, List.getD_eq_getElem?_getD, List.getElem?_append]
  simp [Nat.not_lt.mpr h]

theorem getD_replicate (k : Nat) (a : Int) (i : Nat) (h : i < k) :
    (List.replicate k a).getD i 0 = a := by
  rw [List.getD_eq_getElem?_getD, List.getElem?_replicate]
  simp [h]

theorem getD_repeatEach (k : Nat) (l : List Int) (n t : Nat)
    (hn : n < l.length) (ht : t < k) :
    (repeatEach k l).getD (n * k + t) 0 = l.getD n 0 := by
  induction l generalizing n with
  | nil => exact absurd hn (Nat.not_lt_zero n)
  | cons a rest ih =>
      cases n with
      | zero =>
          show (List.replicate k a ++ repeatEach k rest).getD (0 * k + t) 0 = a
          rw [Nat.zero_mul, Nat.zero_add,
            getD_append_left _ _ t (by rw [List.length_replicate]; exact ht),
            getD_replicate k a t ht]
      | succ n =>
          show (List.replicate k a ++ repeatEach k rest).getD ((n + 1) * k + t) 0
            = (rest : List Int).getD n 0
          have hk : (List.replicate k a).length ≤ (n + 1) * k + t := by
            rw [List.length_replicate]
            calc k ≤ (n + 1) * k := Nat.le_mul_of_pos_left k (Nat.succ_pos n)
              _ ≤ (n + 1) * k + t := Nat.le_add_right _ _
          rw [getD_append_right _ _ _ hk, List.length_replicate]
          have harith : (n + 1) * k + t - k = n * k + t := by
            rw [Nat.succ_mul]
            omega
          rw [harith]
          exact ih n (Nat.lt_of_succ_lt_succ hn)

theorem tile_length (l : List Int) (B : Nat) :
    (tile l B).length = B * l.length := by
  induction B with
  | zero => simp [tile]
  | succ B ih => simp [tile, ih, Nat.succ_mul, Nat.add_comm]

theorem getD_tile (l : List Int) (B w t : Nat) (hw : w < B) (ht : t < l.length) :
    (tile l B).getD (w * l.length + t) 0 = l.getD t 0 := by
  induction B generalizing w with
  | zero => exact absurd hw (Nat.not_lt_zero w)
  | succ B ih =>
      cases w with
      | zero =>
          show (l ++ tile l B).getD (0 * l.length + t) 0 = l.getD t 0
          rw [Nat.zero_mul, Nat.zero_add, getD_append_left _ _ t ht]
      | succ w =>
          show (l ++ tile l B).getD ((w + 1) * l.length + t) 0 = l.getD t 0
          have hk : l.length ≤ (w + 1) * l.length + t := by
            calc l.length ≤ (w + 1) * l.length :=
                  Nat.le_mul_of_pos_left l.length (Nat.succ_pos w)
              _ ≤ (w + 1) * l.length + t := Nat.le_add_right _ _
          rw [getD_append_right _ _ _ hk]
          have harith : (w + 1) * l.length + t - l.length = w * l.length + t := by
            rw [Nat.succ_mul]
            omega
          rw [harith]
          exact ih w (Nat.lt_of_succ_lt_succ hw)

theorem oneTo_length (h : Nat) : (oneTo h).length = h := by
  rw [oneTo, List.length_map, List.length_range]

theorem absTimes_length (cutoff : Int) (h : Nat) :
    (absTimes cutoff h).length = h := by
  rw [absTimes, List.length_map, oneTo_length]

theorem getD_absTimes (cutoff : Int) (h t : Nat) (ht : t < h) :
    (absTimes cutoff h).getD t 0 = cutoff + ((t : Int) + 1) := by
  rw [List.getD_eq_getElem?_getD]
  have hsome : (absTimes cutoff h)[t]? = some (cutoff + ((t : Int) + 1)) := by
    rw [absTimes, oneTo, List.getElem?_map, List.getElem?_map,
      List.getElem?_range ht]
    rfl
  rw [hsome]
  rfl

/-- C3 counterexample: a 2-instance panel whose instances appear in the
order `1, 0` (two rows each). `np.unique` returns the identifiers sorted,
so the reconstructed outer level is `[0, 0, 1, 1]`, not the
panel-order repeat `[1, 1, 0, 0]` the claim requires. -/
theorem index_order_counterexample :
    (reconstructIndex [1, 1, 0, 0] 2 2 0 ["h0", "time"]).outer = [0, 0, 1, 1] ∧
    repeatEach 2 (uniqueInOrder [1, 1, 0, 0]) = [1, 1, 0, 0] ∧
    (reconstructIndex [1, 1, 0, 0] 2 2 0 ["h0", "time"]).outer
      ≠ repeatEach 2 (uniqueInOrder [1, 1, 0, 0]) := by
  refine ⟨by decide, by decide, by decide⟩

/-- C3 amended: the reconstructed outer level repeats each **distinct**
instance identifier `h` times in **ascending sorted** order (the
identifiers are exactly the panel's, as the permutation with the
appearance-order distinct list shows, but sorted — panel order is
preserved only when the panel lists its instances in ascending order);
the inner level is the `B`-fold tiling of the absolute timestamps
`cutoff + 1, ..., cutoff + h`; the level names are copied verbatim. -/
theorem index_reconstruction_spec (ids : List Int) (h B : Nat)
    (cutoff : Int) (names : List String) :
    (reconstructIndex ids h B cutoff names).names = names ∧
    (npUnique ids).Sorted (· ≤ ·) ∧
    (npUnique ids).Perm (uniqueInOrder ids) ∧
    (reconstructIndex ids h B cutoff names).outer.length
      = (npUnique ids).length * h ∧
    (∀ n t, n < (npUnique ids).length → t < h →
      (reconstructIndex ids h B cutoff names).outer.getD (n * h + t) 0
        = (npUnique ids).getD n 0) ∧
    (reconstructIndex ids h B cutoff names).inner.length = B * h ∧
    (∀ w t, w < B → t < h →
      (reconstructIndex ids h B cutoff names).inner.getD (w * h + t) 0
        = cutoff + ((t : Int) + 1)) := by
  refine ⟨rfl, ?_, ?_, ?_, ?_, ?_, ?_⟩
  · exact List.sorted_insertionSort _ _
  · exact List.perm_insertionSort _ _
  · show (repeatEach h (npUnique ids)).length = (npUnique ids).length * h
    exact repeatEach_length h (npUnique ids)
  · intro n t hn ht
    exact getD_repeatEach h (npUnique ids) n t hn ht
  · show (tile (absTimes cutoff h) B).length = B * h
    rw [tile_length, absTimes_length]
  · intro w t hw ht
    show (tile (absTimes cutoff h) B).getD (w * h + t) 0 = cutoff + ((t : Int) + 1)
    have hlen : (absTimes cutoff h).length = h := absTimes_length cutoff h
    have := getD_tile (absTimes cutoff h) B w t hw (by rw [hlen]; exact ht)
    rw [hlen] at this
    rw [this]
    exact getD_absTimes cutoff h t ht

/-- Concrete witness for `index_reconstruction_spec`: the panel of
`index_order_counterexample`, horizon 2, batch 2, cutoff 10. -/
theorem index_reconstruction_spec_witness :
    (reconstructIndex [1, 1, 0, 0] 2 2 10 ["h0", "time"]).names = ["h0", "time"] ∧
    (npUnique [1, 1, 0, 0]).Sorted (· ≤ ·) ∧
    (npUnique [1, 1, 0, 0]).Perm (uniqueInOrder [1, 1, 0, 0]) ∧
    (reconstructIndex [1, 1, 0, 0] 2 2 10 ["h0", "time"]).outer.length
      = (npUnique [1, 1, 0, 0]).length * 2 ∧
    (∀ n t, n < (npUnique [1, 1, 0, 0]).length → t < 2 →
      (reconstructIndex [1, 1, 0, 0] 2 2 10 ["h0", "time"]).outer.getD (n * 2 + t) 0
        = (npUnique [1, 1, 0, 0]).getD n 0) ∧
    (reconstructIndex [1, 1, 0, 0] 2 2 10 ["h0", "time"]).inner.length = 2 * 2 ∧
    (∀ w t, w < 2 → t < 2 →
      (reconstructIndex [1, 1, 0, 0] 2 2 10 ["h0", "time"]).inner.getD (w * 2 + t) 0
        = 10 + ((t : Int) + 1)) :=
  index_reconstruction_spec [1, 1, 0, 0] 2 2 10 ["h0", "time"]

theorem zip_replicate_map (a : Int) (ts : List Int) :
    (List.replicate ts.length a).zip ts = ts.map (fun t => (a, t)) := by
  induction ts with
  | nil => rfl
  | cons t ts ih => simp [List.replicate_succ, ih]

theorem zip_repeatEach_tile (u ts : List Int) :
    (repeatEach ts.length u).zip (tile ts u.length) = pairAll u ts := by
  induction u with
  | nil => rfl
  | cons a rest ih =>
      show (List.replicate ts.length a ++ repeatEach ts.length rest).zip
          (ts ++ tile ts rest.length)
        = ts.map (fun t => (a, t)) ++ pairAll rest ts
      rw [List.zip_append (by rw [List.length_replicate]),
        zip_replicate_map, ih]

theorem filter_map_pair (a : Int) (q : Int → Bool) (ts : List Int) :
    (ts.map (fun t => (a, t))).filter (fun r => q r.2)
      = (ts.filter q).map (fun t => (a, t)) := by
  induction ts with
  | nil => rfl
  | cons t ts ih => by_cases hq : q t <;> simp [List.filter_cons, hq, ih]

theorem filter_pairAll (u ts : List Int) (q : Int → Bool) :
    (pairAll u ts).filter (fun r => q r.2) = pairAll u (ts.filter q) := by
  induction u with
  | nil => rfl
  | cons a rest ih =>
      show (ts.map (fun t => (a, t)) ++ pairAll rest ts).filter (fun r => q r.2)
        = (ts.filter q).map (fun t => (a, t)) ++ pairAll rest (ts.filter q)
      rw [List.filter_append, filter_map_pair, ih]

theorem filter_pairAll_mem (u ts abs : List Int) :
    (pairAll u ts).filter (fun r => decide (r.2 ∈ abs))
      = pairAll u (ts.filter (fun t => decide (t ∈ abs))) :=
  filter_pairAll u ts (fun t => decide (t ∈ abs))

theorem pairAll_length (u ts : List Int) :
    (pairAll u ts).length = u.length * ts.length := by
  induction u with
  | nil => simp [pairAll]
  | cons a rest ih => simp [pairAll, ih, Nat.succ_mul, Nat.add_comm]

theorem mem_map_add (cutoff o : Int) (req : List Int) :
    cutoff + o ∈ req.map (fun x => cutoff + x) ↔ o ∈ req := by
  constructor
  · intro hmem
    rcases List.mem_map.mp hmem with ⟨a, ha, he⟩
    have : a = o := by omega
    rwa [this] at ha
  · intro ho
    exact List.mem_map.mpr ⟨o, ho, rfl⟩

theorem filter_absTimes (cutoff : Int) (h : Nat) (req : List Int) :
    (absTimes cutoff h).filter
        (fun t => decide (t ∈ req.map (fun o => cutoff + o)))
      = ((oneTo h).filter (fun o => decide (o ∈ req))).map
          (fun o => cutoff + o) := by
  rw [absTimes, List.filter_map]
  congr 1
  apply List.filter_congr
  intro o _
  simp only [Function.comp_apply]
  exact decide_eq_decide.mpr (mem_map_add cutoff o req)

theorem oneTo_nodup (h : Nat) : (oneTo h).Nodup := by
  rw [oneTo]
  refine (List.nodup_range h).map ?_
  intro a b hab
  have hab2 : (a : Int) + 1 = (b : Int) + 1 := hab
  omega

theorem filter_oneTo_perm (h : Nat) (req : List Int)
    (hreq : ∀ o ∈ req, o ∈ oneTo h) (hnodup : req.Nodup) :
    ((oneTo h).filter (fun o => decide (o ∈ req))).Perm req := by
  refine (List.perm_ext_iff_of_nodup ((oneTo_nodup h).filter _) hnodup).mpr ?_
  intro a
  simp only [List.mem_filter, decide_eq_true_eq]
  exact ⟨fun ⟨_, ha⟩ => ha, fun ha => ⟨hreq a ha, ha⟩⟩

/-- C4: when the requested horizon's offsets all lie in `1..h` (and are
pairwise distinct), the filtered output contains exactly the rows whose
inner index value belongs to the requested absolute timestamp set, and no
others: it is precisely each distinct instance paired with the kept
offsets in ascending order, hence `req.length` rows per instance. -/
theorem horizon_filtering_spec (ids req : List Int) (h : Nat) (cutoff : Int)
    (hreq : ∀ o ∈ req, o ∈ oneTo h) (hnodup : req.Nodup) :
    (∀ r, r ∈ filterPreds (reconRows ids h cutoff) (req.map (fun o => cutoff + o))
        ↔ r ∈ reconRows ids h cutoff ∧ r.2 ∈ req.map (fun o => cutoff + o)) ∧
    filterPreds (reconRows ids h cutoff) (req.map (fun o => cutoff + o))
      = pairAll (npUnique ids)
          (((oneTo h).filter (fun o => decide (o ∈ req))).map
            (fun o => cutoff + o)) ∧
    (filterPreds (reconRows ids h cutoff) (req.map (fun o => cutoff + o))).length
      = (npUnique ids).length * req.length := by
  have hrows : reconRows ids h cutoff = pairAll (npUnique ids) (absTimes cutoff h) := by
    have hz := zip_repeatEach_tile (npUnique ids) (absTimes cutoff h)
    rw [absTimes_length] at hz
    exact hz
  have hmain : filterPreds (reconRows ids h cutoff) (req.map (fun o => cutoff + o))
      = pairAll (npUnique ids)
          (((oneTo h).filter (fun o => decide (o ∈ req))).map
            (fun o => cutoff + o)) := by
    rw [hrows, filterPreds, filter_pairAll_mem, filter_absTimes]
  refine ⟨?_, hmain, ?_⟩
  · intro r
    simp [filterPreds, List.mem_filter]
  · rw [hmain, pairAll_length, List.length_map,
      (filter_oneTo_perm h req hreq hnodup).length_eq]

/-- Concrete witness for `horizon_filtering_spec`: a 2-instance panel,
reconstructed offsets `1..4`, requested horizon `[2, 4]`, cutoff 0 —
exactly 2 rows per instance, at offsets 2 and 4. -/
theorem horizon_filtering_spec_witness :
    (∀ o ∈ ([2, 4] : List Int), o ∈ oneTo 4) ∧ ([2, 4] : List Int).Nodup ∧
    ((∀ r, r ∈ filterPreds (reconRows [0, 0, 1, 1] 4 0)
            (([2, 4] : List Int).map (fun o => (0 : Int) + o))
        ↔ r ∈ reconRows [0, 0, 1, 1] 4 0
            ∧ r.2 ∈ (([2, 4] : List Int).map (fun o => (0 : Int) + o))) ∧
     filterPreds (reconRows [0, 0, 1, 1] 4 0)
         (([2, 4] : List Int).map (fun o => (0 : Int) + o))
       = pairAll (npUnique [0, 0, 1, 1])
           (((oneTo 4).filter (fun o => decide (o ∈ ([2, 4] : List Int)))).map
             (fun o => (0 : Int) + o)) ∧
     (filterPreds (reconRows [0, 0, 1, 1] 4 0)
         (([2, 4] : List Int).map (fun o => (0 : Int) + o))).length
       = (npUnique [0, 0, 1, 1]).length * ([2, 4] : List Int).length) :=
  ⟨by decide, by decide,
    horizon_filtering_spec [0, 0, 1, 1] [2, 4] 4 0 (by decide) (by decide)⟩
